import Mathlib

/-!
Shallow embedding of the NovaHUB feed-ingestion and field-extraction
pipeline (src/services/tenderService.ts) and proofs about it.

Strings are modelled as Lean strings (lists of characters); JavaScript
string operations used by the source (toLowerCase, includes, trim,
indexOf, startsWith, replace, substring) are embedded as executable
functions over character lists.  JavaScript numbers are modelled as
rationals, which agrees with IEEE doubles on every value this pipeline
produces up to the two-decimal rounding done by the currency formatter.
The two regular expressions of the source are embedded as backtracking
matchers specialised to those exact patterns.
-/

namespace NovaHub

/-- Character test for the JS whitespace class used by trim, the regex
class backslash-s, and parseFloat leading-space skipping. -/
def isJsSpace (c : Char) : Bool :=
  c = ' ' || c = '\t' || c = '\n' || c = '\r' || c = '\x0b' || c = '\x0c' || c = ' '

/-- Character test for the regex character class of digits, dots and
commas, the class from which every captured numeric token is drawn. -/
def isTokenChar (c : Char) : Bool :=
  c.isDigit || c = '.' || c = ','

/-- Character test for the regex dot metacharacter: any character except
a line terminator. -/
def isDotChar (c : Char) : Bool :=
  !(c = '\n' || c = '\r' || c = ' ' || c = ' ')

/-- Case folding used by the source's case-insensitive regex flags and
toLowerCase calls: ASCII letters plus the accented Spanish capitals that
occur in the matched labels. -/
def jsLowerChar (c : Char) : Char :=
  if 'A' ≤ c ∧ c ≤ 'Z' then Char.ofNat (c.toNat + 32)
  else if c = 'Á' then 'á'
  else if c = 'É' then 'é'
  else if c = 'Í' then 'í'
  else if c = 'Ó' then 'ó'
  else if c = 'Ú' then 'ú'
  else if c = 'Ü' then 'ü'
  else if c = 'Ñ' then 'ñ'
  else c

/-- JS String.prototype.toLowerCase, restricted to the alphabet above. -/
def jsToLower (s : String) : String :=
  String.mk (s.toList.map jsLowerChar)

/-- Decide whether p is a prefix of s (character lists). -/
def isPre : List Char → List Char → Bool
  | [], _ => true
  | _ :: _, [] => false
  | a :: ps, b :: ss => a = b && isPre ps ss

/-- Decide whether the pattern p occurs as a contiguous substring of s,
the semantics of JS String.prototype.includes. -/
def listHas (p : List Char) : List Char → Bool
  | [] => isPre p []
  | c :: cs => isPre p (c :: cs) || listHas p cs

/-- JS String.prototype.includes. -/
def strIncludes (hay needle : String) : Bool :=
  listHas needle.toList hay.toList

/-- JS String.prototype.startsWith. -/
def jsStartsWith (s p : String) : Bool :=
  isPre p.toList s.toList

/-- JS String.prototype.trim: strip JS whitespace from both ends. -/
def jsTrim (s : String) : String :=
  String.mk (((s.toList.dropWhile isJsSpace).reverse.dropWhile isJsSpace).reverse)

/-- JS String.prototype.indexOf for a single character: the index of its
first occurrence, or -1 when absent. -/
def firstIdxOf (c : Char) : List Char → Int
  | [] => -1
  | d :: ds =>
    if d = c then 0
    else
      let r := firstIdxOf c ds
      if r = -1 then -1 else r + 1

/-- Embedding of the source's global replace of dots by the empty string. -/
def removeDots (s : String) : String :=
  String.mk (s.toList.filter (fun c => c ≠ '.'))

/-- Embedding of the source's replace of the first comma by a dot
(JS replace with a string pattern replaces only the first occurrence). -/
def replFirstComma : List Char → List Char
  | [] => []
  | c :: cs => if c = ',' then '.' :: cs else c :: replFirstComma cs

/-- String wrapper for replFirstComma. -/
def replaceFirstComma (s : String) : String :=
  String.mk (replFirstComma s.toList)

/-- Digit-run accumulator: the natural number denoted by a list of
decimal digit characters. -/
def digitsToNat : List Char → Nat → Nat
  | [], acc => acc
  | c :: cs, acc => digitsToNat cs (acc * 10 + (c.toNat - 48))

/-- Exact decimal number: the value num divided by ten to the scale.
This represents the JS numbers flowing through this pipeline exactly
(every parseFloat result here is a finite decimal, and the currency
formatter rounds to two decimals, well above double precision). -/
structure Dec where
  num : Nat
  scale : Nat
deriving DecidableEq, Repr

/-- Rational value denoted by a decimal number. -/
def Dec.toQ (d : Dec) : ℚ := (d.num : ℚ) / (10 : ℚ) ^ d.scale

/-- JS parseFloat, modelled on the domain this pipeline applies it to:
strings over digits, dots, commas and whitespace.  Leading whitespace is
skipped, then a maximal digit run, an optional dot and a second digit
run are consumed, any remaining characters are ignored, and the result
is NaN (none) when no digit was consumed before the parse stopped.
Signs, exponents and Infinity cannot occur in captured tokens and are
not modelled. -/
def parseFloatDec (s : String) : Option Dec :=
  let l := s.toList.dropWhile isJsSpace
  let ds := l.takeWhile Char.isDigit
  let rest := l.dropWhile Char.isDigit
  match rest with
  | '.' :: rest2 =>
    let fs := rest2.takeWhile Char.isDigit
    if ds.isEmpty ∧ fs.isEmpty then none
    else some ⟨digitsToNat ds 0 * 10 ^ fs.length + digitsToNat fs 0, fs.length⟩
  | _ => if ds.isEmpty then none else some ⟨digitsToNat ds 0, 0⟩

/-- Decimal digit character of a value below ten. -/
def digitChar (n : Nat) : Char := Char.ofNat (48 + n)

/-- Decimal digit characters of a natural number (fuel-indexed helper). -/
def natDigitsAux : Nat → Nat → List Char
  | 0, _ => []
  | fuel + 1, n =>
    if n < 10 then [digitChar n]
    else natDigitsAux fuel (n / 10) ++ [digitChar (n % 10)]

/-- Decimal digit characters of a natural number. -/
def natDecimal (n : Nat) : List Char := natDigitsAux (n + 1) n

/-- Group a reversed digit list into blocks of three separated by dots
(fuel-indexed helper). -/
def chunkAux : Nat → List Char → List Char
  | 0, ds => ds
  | fuel + 1, ds =>
    if ds.length ≤ 3 then ds else ds.take 3 ++ '.' :: chunkAux fuel (ds.drop 3)

/-- Spanish-locale thousands grouping: dots every three digits, applied
only from five integer digits up (the CLDR minimum-grouping-digits rule
of the es-ES locale used by the source's Intl.NumberFormat). -/
def groupThousands (ds : List Char) : List Char :=
  if 5 ≤ ds.length then (chunkAux ds.length ds.reverse).reverse else ds

/-- Two-digit rendering of a value below one hundred. -/
def twoDigits (n : Nat) : List Char := [digitChar (n / 10), digitChar (n % 10)]

/-- Cents of a decimal value, rounded half-away-from-zero: the floor of
one hundred times the value plus one half, computed by exact natural
division. -/
def Dec.cents (d : Dec) : Nat :=
  (200 * d.num + 10 ^ d.scale) / (2 * 10 ^ d.scale)

/-- Embedding of the source's formatCurrency: Intl.NumberFormat for the
es-ES locale with currency EUR and exactly two fraction digits.  The
value (nonnegative on every path of this pipeline) is rounded
half-away-from-zero to cents, the integer part is grouped per the
Spanish locale, a comma separates the two fraction digits, and the euro
sign follows after a space. -/
def formatCurrency (d : Dec) : String :=
  let cents := d.cents
  let intPart := cents / 100
  let fracPart := cents % 100
  String.mk (groupThousands (natDecimal intPart) ++ ',' :: twoDigits fracPart ++ [' ', '€'])

/-- Embedding of the source's normalizeAndFormatAmount.  The token is
trimmed; when it contains a dot, no comma, and its first dot (indexOf)
sits exactly three characters from the end, it is parsed directly and
formatted on success; otherwise dots are stripped when a comma is also
present, the first comma becomes a dot, and the result is parsed and
formatted, with none returned when parsing fails. -/
def normalizeAndFormatAmount (raw : String) : Option String :=
  let clean := jsTrim raw
  let step1 : Option String :=
    if strIncludes clean "." ∧ ¬ strIncludes clean "," then
      if firstIdxOf '.' clean.toList = (clean.length : Int) - 3 then
        match parseFloatDec clean with
        | some q => some (formatCurrency q)
        | none => none
      else none
    else none
  match step1 with
  | some r => some r
  | none =>
    let clean2 :=
      if strIncludes clean "." ∧ strIncludes clean "," then
        replaceFirstComma (removeDots clean)
      else if strIncludes clean "," then
        replaceFirstComma clean
      else clean
    match parseFloatDec clean2 with
    | some q => some (formatCurrency q)
    | none => none

/-- Case-insensitive literal match: when the pattern (given as a
character list) is a case-insensitive prefix of the input, return the
remaining input, otherwise none. -/
def ciRest : List Char → List Char → Option (List Char)
  | [], s => some s
  | _ :: _, [] => none
  | p :: ps, c :: cs => if jsLowerChar c = jsLowerChar p then ciRest ps cs else none

/-- Tail of the label regex after a matched label alternative: a lazy
run of dot characters, then a colon, then greedily skipped whitespace,
then a nonempty greedy run of token characters, which is the capture.
The lazy run tries the colon at each position from left to right and,
when the part after a colon fails, lets the run consume that colon and
continue, exactly as the backtracking engine does. -/
def afterColon (cs : List Char) : Option String :=
  let tok := (cs.dropWhile isJsSpace).takeWhile isTokenChar
  if tok = [] then none else some (String.mk tok)

/-- Lazy scan for the colon of the label regex (see afterColon). -/
def restMatch : List Char → Option String
  | [] => none
  | c :: cs =>
    if c = ':' then
      match afterColon cs with
      | some cap => some cap
      | none => restMatch cs
    else if isDotChar c then restMatch cs
    else none

/-- Label alternatives of the amount regex, in the source's alternation
order. -/
def labelAlternatives : List (List Char) :=
  ["Importe".toList, "Valor estimado".toList, "Presupuesto base".toList,
    "Importe total".toList]

/-- Attempt the label regex anchored at the current position: try each
label alternative in order and, for the ones that match, the tail of
the pattern. -/
def tryLabelsAt (s : List Char) : Option String :=
  labelAlternatives.foldl
    (fun acc lab =>
      match acc with
      | some r => some r
      | none =>
        match ciRest lab s with
        | some rest => restMatch rest
        | none => none)
    none

/-- Leftmost match of the label regex over the whole text. -/
def labelScan : List Char → Option String
  | [] => none
  | c :: cs =>
    match tryLabelsAt (c :: cs) with
    | some r => some r
    | none => labelScan cs

/-- Captured numeric token of the labeled amount pattern, the source's
labelRegex: one of the labels, then lazily anything up to a colon, then
whitespace, then a numeric token (case-insensitive, leftmost match). -/
def labelCapture (text : String) : Option String :=
  labelScan text.toList

/-- Currency marker alternation of the fallback regex: the euro sign,
EUR, or euros, case-insensitively, anchored at the current position. -/
def markerAt (s : List Char) : Bool :=
  (match s with | '€' :: _ => true | _ => false)
    || (ciRest "eur".toList s).isSome || (ciRest "euros".toList s).isSome

/-- Optional single whitespace character before the currency marker. -/
def wsMarker (s : List Char) : Bool :=
  match s with
  | [] => false
  | c :: cs => (isJsSpace c && markerAt cs) || markerAt (c :: cs)

/-- Backtrack the greedy numeric-token run of the currency regex from
the given length down to one, accepting the first length followed by an
optional whitespace character and a currency marker. -/
def currencyTryLen (run : List Char) : Nat → List Char → Option String
  | 0, _ => none
  | len + 1, s =>
    if wsMarker (s.drop (len + 1)) then some (String.mk (run.take (len + 1)))
    else currencyTryLen run len s

/-- Attempt the currency regex anchored at the current position. -/
def currencyAt (s : List Char) : Option String :=
  let run := s.takeWhile isTokenChar
  if run = [] then none else currencyTryLen run run.length s

/-- Leftmost match of the currency regex over the whole text. -/
def currencyScan : List Char → Option String
  | [] => none
  | c :: cs =>
    match currencyAt (c :: cs) with
    | some r => some r
    | none => currencyScan cs

/-- Captured numeric token of the fallback amount pattern, the source's
currencyRegex: a numeric token, an optional whitespace character, and a
currency marker (case-insensitive, leftmost match). -/
def currencyCapture (text : String) : Option String :=
  currencyScan text.toList

/-- Embedding of the source's extractAmount: the labeled pattern is
tried first and its capture normalized when it matches; only otherwise
is the currency-marker fallback tried; with no match the amount is
absent. -/
def extractAmount (text : String) : Option String :=
  match labelCapture text with
  | some tok => normalizeAndFormatAmount tok
  | none =>
    match currencyCapture text with
    | some tok => normalizeAndFormatAmount tok
    | none => none

/-- Label of the organism regex, colon included. -/
def orgLabel : List Char := "Órgano de Contratación:".toList

/-- Lazy capture of the organism regex: extend character by character
over dot characters, stopping at the first semicolon, comma,
period-space pair, or end of input; fail on a line terminator. -/
def orgCaptureAux : List Char → Option (List Char)
  | [] => some []
  | c :: cs =>
    if c = ';' then some []
    else if c = ',' then some []
    else if c = '.' ∧ cs.head? = some ' ' then some []
    else if isDotChar c then (orgCaptureAux cs).map (fun t => c :: t)
    else none

/-- Leftmost match of the organism regex over the whole text. -/
def orgScan : List Char → Option String
  | [] => none
  | c :: cs =>
    match ciRest orgLabel (c :: cs) with
    | some rest =>
      (match orgCaptureAux (rest.dropWhile isJsSpace) with
        | some cap => some (jsTrim (String.mk cap))
        | none => orgScan cs)
    | none => orgScan cs

/-- Embedding of the source's extractOrganism: the contracting-body
label followed by whitespace and a lazy capture up to a delimiter, the
capture trimmed; absent when the pattern does not match. -/
def extractOrganism (text : String) : Option String :=
  orgScan text.toList

/-- Markup-tag removal, the source's global replace of the tag regex by
the empty string: a left angle bracket, a greedy run of characters
other than a right angle bracket, and an optional right angle bracket;
a bracket left unclosed swallows the rest of the text. -/
def stripTagsAux : Nat → List Char → List Char
  | 0, _ => []
  | _ + 1, [] => []
  | fuel + 1, c :: cs =>
    if c = '<' then stripTagsAux fuel ((cs.dropWhile (fun d => d != '>')).drop 1)
    else c :: stripTagsAux fuel cs

/-- String wrapper for stripTagsAux; the fuel bounds the recursion depth
and a character of fuel per character of input always suffices. -/
def stripTags (s : String) : String :=
  String.mk (stripTagsAux s.toList.length s.toList)

/-- Embedding of the source's cleanSummary: text beginning (after
trimming and lowercasing) with the structured-dump markers takes the
first branch, all other text the second, and both branches strip markup
tags identically. -/
def cleanSummary (text : String) : String :=
  if jsStartsWith (jsToLower (jsTrim text)) "id licitación"
      || jsStartsWith (jsToLower (jsTrim text)) "expediente" then
    stripTags text
  else
    stripTags text

/-- Insertion into the source's Set of matches: a string already
present is dropped, a new one goes to the back, preserving insertion
order. -/
def addMatch (l : List String) (x : String) : List String :=
  if x ∈ l then l else l ++ [x]

/-- Iteration of the source's findKeywords over the keyword list,
carrying the set of matches accumulated so far. -/
def kwFold (lowerText : String) : List String → List String → List String
  | acc, [] => acc
  | acc, k :: ks =>
    kwFold lowerText
      (if strIncludes lowerText (jsToLower k) then addMatch acc k else acc) ks

/-- Embedding of the source's findKeywords, parameterized by the
configured keyword list (the source reads it from a constants module
that is not part of the service): each keyword whose lowercasing occurs
in the lowercased text is inserted into a set of matches, which is
returned in insertion order. -/
def findKeywords (keywords : List String) (text : String) : List String :=
  kwFold (jsToLower text) [] keywords

/-- Fields read from one entry node of a feed document, each as the DOM
delivers it to the source loop: textContent of the first element of the
given tag (none when the element is absent, possibly the empty string),
and for the link element its presence together with its optional href
attribute.  The DOM parser itself is a browser builtin outside the
repository, so documents are modelled by their entry lists. -/
structure Entry where
  title : Option String
  summary : Option String
  content : Option String
  link : Option (Option String)
  updated : Option String
  id : Option String
deriving DecidableEq, Repr

/-- Record produced for one entry, the shape of the Tender interface of
the repository's types module. -/
structure Tender where
  id : String
  title : String
  summary : String
  link : String
  updated : String
  keywordsFound : List String
  isRead : Bool
  sourceType : String
  contractType : String
  amount : Option String
  organism : Option String
deriving DecidableEq, Repr

/-- JS logical-or against a default, as the source uses it on strings:
null, undefined and the empty string all fall back to the default. -/
def jsOr (o : Option String) (d : String) : String :=
  match o with
  | some s => if s = "" then d else s
  | none => d

/-- Title of an entry with the source's fallback. -/
def entryTitle (e : Entry) : String := jsOr e.title "Sin título"

/-- Description body of an entry: content preferred over summary, empty
when both are missing. -/
def rawDescription (e : Entry) : String := jsOr e.content (jsOr e.summary "")

/-- Link of an entry: empty when the link element is absent or carries
no href attribute. -/
def entryLink (e : Entry) : String :=
  match e.link with
  | none => ""
  | some h => jsOr h ""

/-- Combined text surface scanned by the keyword and contract-type
classifiers: title, cleaned summary, and organism (empty when absent),
space-joined. -/
def entryFullText (e : Entry) : String :=
  entryTitle e ++ " " ++ cleanSummary (rawDescription e) ++ " "
    ++ ((extractOrganism (rawDescription e)).getD "")

/-- Truncation applied to the stored summary: text longer than three
hundred characters is cut there and an ellipsis marker appended. -/
def truncateSummary (s : String) : String :=
  if s.length > 300 then String.mk (s.toList.take 300) ++ "..." else s

/-- Embedding of the body of the source's parseAtomFeed loop for a
single entry.  The oracle strings nowStr and randStr stand for the
toISOString of the current time and the random fallback suffix drawn at
this iteration. -/
def parseEntry (keywords : List String) (nowStr randStr : String)
    (sourceType : String) (e : Entry) : Tender :=
  let title := entryTitle e
  let desc := rawDescription e
  let amount := extractAmount desc
  let organism := extractOrganism desc
  let summary := cleanSummary desc
  let fullText := title ++ " " ++ summary ++ " " ++ (organism.getD "")
  let contractType :=
    if strIncludes (jsToLower fullText) "servicios" then "Servicios"
    else if strIncludes (jsToLower fullText) "suministros" then "Suministros"
    else if strIncludes (jsToLower fullText) "obras" then "Obras"
    else "Otros"
  { id := jsOr e.id ("gen-" ++ randStr)
    title := title
    summary := truncateSummary summary
    link := entryLink e
    updated := jsOr e.updated nowStr
    keywordsFound := findKeywords keywords fullText
    isRead := false
    sourceType := sourceType
    contractType := contractType
    amount := amount
    organism := organism }

/-- Loop of parseAtomFeed from a given entry index, threading the
per-iteration oracles. -/
def parseEntriesFrom (keywords : List String) (now rand : Nat → String)
    (sourceType : String) : Nat → List Entry → List Tender
  | _, [] => []
  | i, e :: es =>
    parseEntry keywords (now i) (rand i) sourceType e
      :: parseEntriesFrom keywords now rand sourceType (i + 1) es

/-- Embedding of the source's parseAtomFeed over the entry nodes of a
document.  The oracles now and rand supply, per entry index, the
toISOString of the clock and the random fallback-id suffix. -/
def parseAtomFeed (keywords : List String) (now rand : Nat → String)
    (entries : List Entry) (sourceType : String) : List Tender :=
  parseEntriesFrom keywords now rand sourceType 0 entries

/-- One configured feed source. -/
structure FeedConfig where
  url : String
  sourceType : String
deriving DecidableEq, Repr

/-- The source's FEED_CONFIG: the three fixed syndication feeds. -/
def FEED_CONFIG : List FeedConfig :=
  [⟨"https://contrataciondelsectorpublico.gob.es/sindicacion/sindicacion_643/licitacionesPerfilesContratanteCompleto3.atom",
      "Perfiles Contratante"⟩,
    ⟨"https://contrataciondelsectorpublico.gob.es/sindicacion/sindicacion_1044/PlataformasAgregadasSinMenores.atom",
      "Plataformas Agregadas"⟩,
    ⟨"https://contrataciondelsectorpublico.gob.es/sindicacion/sindicacion_1143/contratosMenoresPerfilesContratantes.atom",
      "Contratos Menores"⟩]

/-- Environment oracle for one fetch cycle: the text delivered by the
fallback transport chain per url (none when every relay fails), the
entry nodes the DOM parser yields per document (none modelling a thrown
exception anywhere in the feed's pipeline, which the source catches),
the clock and randomness streams, and the configured keyword list. -/
structure Env where
  fetchFeedContent : String → Option String
  domEntries : String → Option (List Entry)
  now : Nat → String
  rand : Nat → String
  keywords : List String

/-- Pipeline of one feed inside fetchTenders: fetch the document,
require a nonempty text that starts with a markup token after trimming,
parse it, and fall back to an empty contribution on any failure. -/
def processFeed (env : Env) (feed : FeedConfig) : List Tender :=
  match env.fetchFeedContent feed.url with
  | some xmlContent =>
    if xmlContent ≠ "" ∧ jsStartsWith (jsTrim xmlContent) "<" then
      match env.domEntries xmlContent with
      | some es => parseAtomFeed env.keywords env.now env.rand es feed.sourceType
      | none => []
    else []
  | none => []

/-- Comparator of the final sort, derived from the source's comparator
on Date-parsed updated strings with the date parser abstracted as pd: a
record sorts no later than another when its key is no smaller. -/
def tenderLe (pd : String → Int) (a b : Tender) : Bool :=
  decide (pd b.updated ≤ pd a.updated)

/-- Embedding of the source's fetchTenders: every configured feed's
pipeline contributes its records (an empty list on failure), the
contributions are concatenated in configuration order, and the result
is stably sorted descending by the Date value of updated. -/
def fetchTenders (pd : String → Int) (env : Env) : List Tender :=
  let allTenders := (FEED_CONFIG.map (processFeed env)).foldl (· ++ ·) []
  allTenders.mergeSort (tenderLe pd)

/-- Characterization of a captured numeric token: nonempty and drawn
from the digits-dots-commas character class of both amount regexes. -/
def NumToken (s : String) : Prop :=
  s.toList ≠ [] ∧ ∀ c ∈ s.toList, isTokenChar c = true

instance (s : String) : Decidable (NumToken s) := by
  unfold NumToken; infer_instance

/-- Restatement of the amount-normalization case analysis following the
amended claim wording: a trimmed token with a dot, no comma, and its
first dot exactly three characters from the end is parsed directly with
the dot as decimal separator; otherwise, with both separators present
the dots are stripped and the first comma becomes the decimal point,
with only a comma present the comma becomes the decimal point; the
result is parsed and formatted, absent when unparseable. -/
def amountNormSpec (raw : String) : Option String :=
  let c := jsTrim raw
  if strIncludes c "." ∧ ¬ strIncludes c ","
      ∧ firstIdxOf '.' c.toList = (c.length : Int) - 3 then
    (parseFloatDec c).map formatCurrency
  else
    let c2 :=
      if strIncludes c "." ∧ strIncludes c "," then
        replaceFirstComma (removeDots c)
      else if strIncludes c "," then replaceFirstComma c
      else c
    (parseFloatDec c2).map formatCurrency

/-- Erasure of the two oracle-dependent fields of a record, used to
state that every other field of a parse is reproducible. -/
def scrubVolatile (t : Tender) : Tender :=
  { t with id := "", updated := "" }

/-! ### Supporting lemmas -/

theorem matchFormat_eq_map (o : Option Dec) :
    (match o with | some q => some (formatCurrency q) | none => none)
      = o.map formatCurrency := by
  cases o <;> rfl

/-- The source's two normalization paths agree with the single case
analysis of amountNormSpec: when the first branch's parse fails, the
fallthrough reparses the unchanged token and fails again. -/
theorem normalize_eq_normSpec (raw : String) :
    normalizeAndFormatAmount raw = amountNormSpec raw := by
  unfold normalizeAndFormatAmount amountNormSpec
  by_cases hdot : strIncludes (jsTrim raw) "." = true
  · by_cases hcom : strIncludes (jsTrim raw) "," = true
    · simp [hdot, hcom, matchFormat_eq_map]
    · by_cases hidx :
        firstIdxOf '.' (jsTrim raw).data = ((jsTrim raw).length : Int) - 3
      · simp only [hdot, hcom, hidx]
        cases hp : parseFloatDec (jsTrim raw) with
        | some q => simp [hp, hidx]
        | none => simp [hp, hidx, hdot, hcom]
      · simp [hdot, hcom, hidx, matchFormat_eq_map]
  · simp [hdot, matchFormat_eq_map]

theorem tokenChar_not_space {c : Char} (h : isTokenChar c = true) :
    isJsSpace c = false := by
  cases hs : isJsSpace c with
  | false => rfl
  | true =>
    exfalso
    simp only [isJsSpace, Bool.or_eq_true, decide_eq_true_eq] at hs
    rcases hs with ((((((h1 | h1) | h1) | h1) | h1) | h1) | h1) <;> subst h1 <;>
      exact absurd h (by decide)

theorem dropWhile_eq_self_of_not (p : Char → Bool) (l : List Char)
    (h : ∀ c ∈ l, p c = false) : l.dropWhile p = l := by
  cases l with
  | nil => rfl
  | cons a as => simp [List.dropWhile_cons, h a (by simp)]

theorem jsTrim_eq_self {s : String} (h : ∀ c ∈ s.toList, isJsSpace c = false) :
    jsTrim s = s := by
  unfold jsTrim
  rw [dropWhile_eq_self_of_not _ _ h,
    dropWhile_eq_self_of_not _ _ (fun c hc => h c (by simpa using hc)),
    List.reverse_reverse]
  cases s
  rfl

theorem addMatch_mem (l : List String) (x y : String) :
    y ∈ addMatch l x ↔ y ∈ l ∨ y = x := by
  unfold addMatch
  by_cases h : x ∈ l
  · simp only [h, if_true]
    exact ⟨Or.inl, fun h' => h'.elim id (fun e => e ▸ h)⟩
  · simp [h]

theorem addMatch_nodup {l : List String} (h : l.Nodup) (x : String) :
    (addMatch l x).Nodup := by
  unfold addMatch
  by_cases hx : x ∈ l
  · simpa [hx] using h
  · simp [hx, List.nodup_append, h]

theorem kwFold_nodup (lt : String) (ks : List String) :
    ∀ acc : List String, acc.Nodup → (kwFold lt acc ks).Nodup := by
  induction ks with
  | nil => intro acc h; exact h
  | cons k ks ih =>
    intro acc h
    simp only [kwFold]
    by_cases hm : strIncludes lt (jsToLower k) = true
    · simp only [hm, if_true]
      exact ih _ (addMatch_nodup h k)
    · simp only [hm, if_false]
      exact ih _ h

theorem kwFold_mem (lt : String) (ks : List String) :
    ∀ (acc : List String) (x : String),
      x ∈ kwFold lt acc ks
        ↔ x ∈ acc ∨ (x ∈ ks ∧ strIncludes lt (jsToLower x) = true) := by
  induction ks with
  | nil => simp [kwFold]
  | cons k ks ih =>
    intro acc x
    simp only [kwFold]
    by_cases hm : strIncludes lt (jsToLower k) = true
    · rw [if_pos hm, ih]
      rw [addMatch_mem]
      constructor
      · rintro ((h | h) | ⟨hks, hP⟩)
        · exact Or.inl h
        · exact Or.inr ⟨by simp [h], by rw [h]; exact hm⟩
        · exact Or.inr ⟨by simp [hks], hP⟩
      · rintro (h | ⟨hmem, hP⟩)
        · exact Or.inl (Or.inl h)
        · rcases List.mem_cons.mp hmem with h | h
          · exact Or.inl (Or.inr h)
          · exact Or.inr ⟨h, hP⟩
    · rw [if_neg hm, ih]
      constructor
      · rintro (h | ⟨hks, hP⟩)
        · exact Or.inl h
        · exact Or.inr ⟨by simp [hks], hP⟩
      · rintro (h | ⟨hmem, hP⟩)
        · exact Or.inl h
        · rcases List.mem_cons.mp hmem with h | h
          · exact absurd (h ▸ hP) (by simpa using hm)
          · exact Or.inr ⟨h, hP⟩

theorem kwFold_decomp (lt : String) (ks : List String) :
    ∀ acc : List String,
      ∃ r, kwFold lt acc ks = acc ++ r ∧ List.Sublist r ks := by
  induction ks with
  | nil => intro acc; exact ⟨[], by simp [kwFold]⟩
  | cons k ks ih =>
    intro acc
    simp only [kwFold]
    by_cases hm : strIncludes lt (jsToLower k) = true
    · rw [if_pos hm]
      unfold addMatch
      by_cases hx : k ∈ acc
      · rw [if_pos hx]
        obtain ⟨r, hr, hs⟩ := ih acc
        exact ⟨r, hr, hs.cons k⟩
      · rw [if_neg hx]
        obtain ⟨r, hr, hs⟩ := ih (acc ++ [k])
        exact ⟨k :: r, by simpa using hr, hs.cons₂ k⟩
    · rw [if_neg hm]
      obtain ⟨r, hr, hs⟩ := ih acc
      exact ⟨r, hr, hs.cons k⟩

/-! ### Claim theorems -/

/-- C1 (amended): amount normalization follows the stated case analysis
with the first-branch condition on the token's FIRST dot being exactly
three characters from the end (not on the final dot as the claim has
it); with both separators the dots are stripped and the comma becomes
the decimal point; with only a comma the comma becomes the decimal
point; the value is formatted in Spanish convention with two decimals,
so "600000.00" formats as "600.000,00 €", "100.000,00" carries the
value 100000.00, and "1500,50" the value 1500.50. -/
theorem claim_C1 :
    (∀ raw : String, normalizeAndFormatAmount raw = amountNormSpec raw)
    ∧ normalizeAndFormatAmount "600000.00" = some "600.000,00 €"
    ∧ normalizeAndFormatAmount "100.000,00" = some "100.000,00 €"
    ∧ parseFloatDec "100000.00" = some ⟨10000000, 2⟩
    ∧ Dec.toQ ⟨10000000, 2⟩ = 100000
    ∧ normalizeAndFormatAmount "1500,50" = some "1500,50 €"
    ∧ parseFloatDec "1500.50" = some ⟨150050, 2⟩
    ∧ Dec.toQ ⟨150050, 2⟩ = (3001 : ℚ) / 2 :=
  ⟨normalize_eq_normSpec, by decide, by decide, by decide,
    by norm_num [Dec.toQ], by decide, by decide, by norm_num [Dec.toQ]⟩

/-- C1 counterexample: the token "600.000.00" contains only dots and
ends with exactly two digits after its FINAL dot, so by the claim the
dot would be a decimal separator giving the value 600000 and the
formatted string "600.000,00 €"; the code tests the FIRST dot's index,
the test fails, no separator is stripped, parseFloat reads 600, and the
output is "600,00 €". -/
theorem claim_C1_counterexample :
    NumToken "600.000.00"
    ∧ normalizeAndFormatAmount "600.000.00" = some "600,00 €"
    ∧ formatCurrency ⟨600000, 0⟩ = "600.000,00 €"
    ∧ decide (normalizeAndFormatAmount "600.000.00"
        = some (formatCurrency ⟨600000, 0⟩)) = false :=
  ⟨by decide, by decide, by decide, by decide⟩

/-- C10: a captured numeric token with at least one dot, no comma, and
its first dot not exactly three characters from the end is handed to
floating-point parsing unchanged, whose greedy prefix parse reads the
first dot as the decimal point: "1.234" gives the value 1.234 and
formats as "1,23 €" rather than "1.234,00 €", and "1.300.50" parses as
1.3 and formats as "1,30 €". -/
theorem claim_C10 :
    (∀ raw : String, NumToken raw → strIncludes raw "." = true →
      strIncludes raw "," = false →
      firstIdxOf '.' raw.data ≠ (raw.length : Int) - 3 →
      normalizeAndFormatAmount raw = (parseFloatDec raw).map formatCurrency)
    ∧ normalizeAndFormatAmount "1.234" = some "1,23 €"
    ∧ parseFloatDec "1.234" = some ⟨1234, 3⟩
    ∧ Dec.toQ ⟨1234, 3⟩ = (617 : ℚ) / 500
    ∧ decide (normalizeAndFormatAmount "1.234" = some "1.234,00 €") = false
    ∧ normalizeAndFormatAmount "1.300.50" = some "1,30 €"
    ∧ parseFloatDec "1.300.50" = some ⟨1300, 3⟩ := by
  refine ⟨?_, by decide, by decide, by norm_num [Dec.toQ], by decide, by decide,
    by decide⟩
  intro raw hT hdot hcom hidx
  have ht : jsTrim raw = raw :=
    jsTrim_eq_self (fun c hc => tokenChar_not_space (hT.2 c hc))
  rw [normalize_eq_normSpec]
  unfold amountNormSpec
  rw [ht]
  simp [hdot, hcom, hidx]

/-- C10 witness: the theorem applied to the concrete token "1.234". -/
theorem claim_C10_witness :
    normalizeAndFormatAmount "1.234" = (parseFloatDec "1.234").map formatCurrency :=
  claim_C10.1 "1.234" (by decide) (by decide) (by decide) (by decide)

/-- C5: keyword matching tests each configured keyword independently by
case-insensitive substring containment; the result has no duplicates,
lists matched keywords in the order of the configured list, and
membership depends only on containment, hence not on how often or in
what casing a keyword occurs in the text. -/
theorem claim_C5 : ∀ (keywords : List String) (text : String),
    (findKeywords keywords text).Nodup
    ∧ List.Sublist (findKeywords keywords text) keywords
    ∧ ∀ k, k ∈ findKeywords keywords text ↔
        k ∈ keywords ∧ strIncludes (jsToLower text) (jsToLower k) = true := by
  intro ks t
  refine ⟨kwFold_nodup _ _ _ List.nodup_nil, ?_, ?_⟩
  · obtain ⟨r, hr, hs⟩ := kwFold_decomp (jsToLower t) ks []
    simpa [findKeywords, hr] using hs
  · intro k
    simpa [findKeywords] using kwFold_mem (jsToLower t) ks [] k

/-- C3: the labeled amount pattern has priority; its normalization is
returned whenever it matches, even when a currency-marker match occurs
elsewhere in the text, and the currency-marker fallback is consulted
only when no label matches.  In "Importe: 100 y luego 999 €" the
fallback would capture "999" but the labeled capture "100" wins; in
"el precio es 3000 EUR" no label matches and the fallback is used. -/
theorem claim_C3 :
    (∀ t tok : String, labelCapture t = some tok →
      extractAmount t = normalizeAndFormatAmount tok)
    ∧ (∀ t : String, labelCapture t = none →
      extractAmount t = (currencyCapture t).bind normalizeAndFormatAmount)
    ∧ extractAmount "Importe: 100 y luego 999 €" = some "100,00 €"
    ∧ currencyCapture "Importe: 100 y luego 999 €" = some "999"
    ∧ labelCapture "el precio es 3000 EUR" = none
    ∧ extractAmount "el precio es 3000 EUR" = some "3000,00 €" := by
  refine ⟨?_, ?_, by decide, by decide, by decide, by decide⟩
  · intro t tok h
    simp [extractAmount, h]
  · intro t h
    cases hc : currencyCapture t with
    | some tok => simp [extractAmount, h, hc]
    | none => simp [extractAmount, h, hc]

/-- C3 witness: the theorem applied to the two concrete texts. -/
theorem claim_C3_witness :
    extractAmount "Importe: 100 y luego 999 €" = normalizeAndFormatAmount "100"
    ∧ extractAmount "el precio es 3000 EUR"
        = (currencyCapture "el precio es 3000 EUR").bind normalizeAndFormatAmount :=
  ⟨claim_C3.1 _ "100" (by decide), claim_C3.2.1 _ (by decide)⟩

theorem formatCurrency_ne_empty (d : Dec) : formatCurrency d ≠ "" := by
  unfold formatCurrency
  intro h
  have h2 := congrArg String.data h
  simp at h2

theorem normalize_some_format {raw s : String}
    (h : normalizeAndFormatAmount raw = some s) : ∃ d, s = formatCurrency d := by
  rw [normalize_eq_normSpec] at h
  unfold amountNormSpec at h
  simp only [] at h
  split_ifs at h <;>
    · rw [Option.map_eq_some'] at h
      obtain ⟨d, _, hd⟩ := h
      exact ⟨d, hd.symm⟩

/-- C8: with neither pattern matching, and likewise when the matched
token's normalization is unparseable, the amount is absent; a present
amount is never the empty string; and the organism, summary and amount
fields of a record are computed independently from the description, so
an absent amount never blocks the others. -/
theorem claim_C8 :
    (∀ t : String, labelCapture t = none → currencyCapture t = none →
      extractAmount t = none)
    ∧ (∀ t tok : String, labelCapture t = some tok →
      normalizeAndFormatAmount tok = none → extractAmount t = none)
    ∧ (∀ t tok : String, labelCapture t = none → currencyCapture t = some tok →
      normalizeAndFormatAmount tok = none → extractAmount t = none)
    ∧ (∀ t s : String, extractAmount t = some s → s ≠ "")
    ∧ (∀ (ks : List String) (n r st : String) (e : Entry),
        (parseEntry ks n r st e).organism = extractOrganism (rawDescription e)
        ∧ (parseEntry ks n r st e).summary
            = truncateSummary (cleanSummary (rawDescription e))
        ∧ (parseEntry ks n r st e).amount = extractAmount (rawDescription e)) := by
  refine ⟨?_, ?_, ?_, ?_, ?_⟩
  · intro t h1 h2
    simp [extractAmount, h1, h2]
  · intro t tok h1 h2
    simp [extractAmount, h1, h2]
  · intro t tok h1 h2 h3
    simp [extractAmount, h1, h2, h3]
  · intro t s h
    cases hl : labelCapture t with
    | some tok =>
      simp only [extractAmount, hl] at h
      obtain ⟨d, hd⟩ := normalize_some_format h
      exact hd ▸ formatCurrency_ne_empty d
    | none =>
      cases hc : currencyCapture t with
      | some tok =>
        simp only [extractAmount, hl, hc] at h
        obtain ⟨d, hd⟩ := normalize_some_format h
        exact hd ▸ formatCurrency_ne_empty d
      | none => simp [extractAmount, hl, hc] at h
  · intro ks n r st e
    exact ⟨rfl, rfl, rfl⟩

/-- C8 witness: the theorem applied to a text matching neither pattern,
to texts whose labeled or fallback capture is an unparseable token, and
to a text with a present, hence nonempty, amount. -/
theorem claim_C8_witness :
    extractAmount "hola" = none
    ∧ extractAmount "Importe: ," = none
    ∧ extractAmount "vale ,, €" = none
    ∧ decide (("100,00 €" : String) = "") = false :=
  ⟨claim_C8.1 "hola" (by decide) (by decide),
    claim_C8.2.1 "Importe: ," "," (by decide) (by decide),
    claim_C8.2.2.1 "vale ,, €" ",," (by decide) (by decide) (by decide),
    decide_eq_false
      (claim_C8.2.2.2.1 "Importe: 100" "100,00 €" (by decide))⟩

/-- C7: a fetched document that does not start, after trimming, with a
markup start token makes the feed pipeline yield the empty record list
(the embedded pipeline is a total function, so no exception escapes). -/
theorem claim_C7 : ∀ (env : Env) (feed : FeedConfig) (xml : String),
    env.fetchFeedContent feed.url = some xml →
    jsStartsWith (jsTrim xml) "<" = false →
    processFeed env feed = [] := by
  intro env feed xml hf hs
  unfold processFeed
  rw [hf]
  simp [hs]

/-- C7 witness: the theorem applied to a concrete environment serving a
plain-text body. -/
theorem claim_C7_witness :
    processFeed ⟨fun _ => some "no es xml", fun _ => some [], fun _ => "",
        fun _ => "", []⟩ ⟨"u", "S"⟩ = [] :=
  claim_C7 _ _ "no es xml" rfl (by decide)

/-- C4: the contract type is classified over the combined lowercased
text surface in fixed priority order servicios, suministros, obras,
with Otros as default, so it always lies in the closed four-element set
and a surface containing "servicios" always classifies as Servicios. -/
theorem claim_C4 : ∀ (ks : List String) (n r st : String) (e : Entry),
    (parseEntry ks n r st e).contractType
        ∈ (["Servicios", "Suministros", "Obras", "Otros"] : List String)
    ∧ (strIncludes (jsToLower (entryFullText e)) "servicios" = true →
        (parseEntry ks n r st e).contractType = "Servicios")
    ∧ (strIncludes (jsToLower (entryFullText e)) "servicios" = false →
        strIncludes (jsToLower (entryFullText e)) "suministros" = true →
        (parseEntry ks n r st e).contractType = "Suministros")
    ∧ (strIncludes (jsToLower (entryFullText e)) "servicios" = false →
        strIncludes (jsToLower (entryFullText e)) "suministros" = false →
        strIncludes (jsToLower (entryFullText e)) "obras" = true →
        (parseEntry ks n r st e).contractType = "Obras")
    ∧ (strIncludes (jsToLower (entryFullText e)) "servicios" = false →
        strIncludes (jsToLower (entryFullText e)) "suministros" = false →
        strIncludes (jsToLower (entryFullText e)) "obras" = false →
        (parseEntry ks n r st e).contractType = "Otros") := by
  intro ks n r st e
  have hct : (parseEntry ks n r st e).contractType
      = (if strIncludes (jsToLower (entryFullText e)) "servicios" = true then "Servicios"
        else if strIncludes (jsToLower (entryFullText e)) "suministros" = true then "Suministros"
        else if strIncludes (jsToLower (entryFullText e)) "obras" = true then "Obras"
        else "Otros") := rfl
  refine ⟨?_, ?_, ?_, ?_, ?_⟩
  · rw [hct]; split_ifs <;> simp
  · intro h1; simp [hct, h1]
  · intro h1 h2; simp [hct, h1, h2]
  · intro h1 h2 h3; simp [hct, h1, h2, h3]
  · intro h1 h2 h3; simp [hct, h1, h2, h3]

/-- C4 witness: the theorem applied to four concrete entries, one per
priority branch, the first containing both "obras" and "servicios". -/
theorem claim_C4_witness :
    (parseEntry [] "N" "R" "S"
        ⟨some "Mantenimiento de obras y servicios", none, none, none, none,
          some "i"⟩).contractType = "Servicios"
    ∧ (parseEntry [] "N" "R" "S"
        ⟨some "Compra de suministros", none, none, none, none,
          some "i"⟩).contractType = "Suministros"
    ∧ (parseEntry [] "N" "R" "S"
        ⟨some "Ejecución de obras", none, none, none, none,
          some "i"⟩).contractType = "Obras"
    ∧ (parseEntry [] "N" "R" "S"
        ⟨some "Convenio marco", none, none, none, none,
          some "i"⟩).contractType = "Otros" :=
  ⟨(claim_C4 [] "N" "R" "S" _).2.1 (by decide),
    (claim_C4 [] "N" "R" "S" _).2.2.1 (by decide) (by decide),
    (claim_C4 [] "N" "R" "S" _).2.2.2.1 (by decide) (by decide) (by decide),
    (claim_C4 [] "N" "R" "S" _).2.2.2.2 (by decide) (by decide) (by decide)⟩

theorem stripTagsAux_not_mem : ∀ (fuel : Nat) (l : List Char),
    '<' ∉ stripTagsAux fuel l := by
  intro fuel
  induction fuel with
  | zero => intro l; simp [stripTagsAux]
  | succ n ih =>
    intro l
    cases l with
    | nil => simp [stripTagsAux]
    | cons c cs =>
      by_cases h : c = '<'
      · simpa [stripTagsAux, h] using ih _
      · simp only [stripTagsAux, if_neg h, List.mem_cons]
        rintro (h' | h')
        · exact h h'.symm
        · exact ih _ h'

theorem cleanSummary_not_mem (t : String) : '<' ∉ (cleanSummary t).data := by
  unfold cleanSummary
  split <;> exact stripTagsAux_not_mem _ _

theorem truncateSummary_length (s : String) : (truncateSummary s).length ≤ 303 := by
  unfold truncateSummary
  split_ifs with h
  · have h1 : (String.mk (s.toList.take 300)).length = (s.toList.take 300).length := rfl
    have h2 : (s.toList.take 300).length = min 300 s.toList.length :=
      List.length_take 300 s.toList
    have h3 : ("..." : String).length = 3 := rfl
    rw [String.length_append, h1, h2, h3]
    omega
  · omega

theorem truncateSummary_not_mem {s : String} (h : '<' ∉ s.data) :
    '<' ∉ (truncateSummary s).data := by
  unfold truncateSummary
  split_ifs with hl
  · have hd : (String.mk (s.toList.take 300) ++ "...").data
        = s.toList.take 300 ++ ['.', '.', '.'] := rfl
    rw [hd]
    simp only [List.mem_append, List.mem_cons]
    rintro (h' | h')
    · exact h ((List.take_sublist 300 s.toList).subset h')
    · simp at h'
  · exact h

/-- C6: the stored summary is the tag-stripped description, truncated at
three hundred characters with an ellipsis marker when longer, hence its
length is at most 303 and it contains no tag-opening bracket. -/
theorem claim_C6 : ∀ (ks : List String) (n r st : String) (e : Entry),
    (parseEntry ks n r st e).summary
        = truncateSummary (cleanSummary (rawDescription e))
    ∧ (parseEntry ks n r st e).summary.length ≤ 303
    ∧ decide ('<' ∈ (parseEntry ks n r st e).summary.data) = false := by
  intro ks n r st e
  refine ⟨rfl, ?_, ?_⟩
  · exact truncateSummary_length _
  · exact decide_eq_false (truncateSummary_not_mem (cleanSummary_not_mem _))

theorem jsOr_present {o : Option String} (h : jsOr o "" ≠ "") (d1 d2 : String) :
    jsOr o d1 = jsOr o d2 := by
  cases o with
  | none => simp [jsOr] at h
  | some s =>
    by_cases hs : s = ""
    · simp [jsOr, hs] at h
    · simp [jsOr, hs]

theorem parseEntry_congr {ks : List String} {a b a' b' st : String} {e : Entry}
    (hid : jsOr e.id "" ≠ "") (hup : jsOr e.updated "" ≠ "") :
    parseEntry ks a b st e = parseEntry ks a' b' st e := by
  have h1 : jsOr e.id ("gen-" ++ b) = jsOr e.id ("gen-" ++ b') :=
    jsOr_present hid _ _
  have h2 : jsOr e.updated a = jsOr e.updated a' := jsOr_present hup _ _
  simp [parseEntry, h1, h2]

theorem parseEntriesFrom_scrub (ks : List String) (n1 r1 n2 r2 : Nat → String)
    (st : String) : ∀ (es : List Entry) (i : Nat),
    (parseEntriesFrom ks n1 r1 st i es).map scrubVolatile
      = (parseEntriesFrom ks n2 r2 st i es).map scrubVolatile := by
  intro es
  induction es with
  | nil => intro i; rfl
  | cons e es ih =>
    intro i
    simp only [parseEntriesFrom, List.map_cons, ih (i + 1)]
    rfl

theorem parseEntriesFrom_congr (ks : List String) (n1 r1 n2 r2 : Nat → String)
    (st : String) : ∀ (es : List Entry) (i : Nat),
    (∀ e ∈ es, jsOr e.id "" ≠ "" ∧ jsOr e.updated "" ≠ "") →
    parseEntriesFrom ks n1 r1 st i es = parseEntriesFrom ks n2 r2 st i es := by
  intro es
  induction es with
  | nil => intro i _; rfl
  | cons e es ih =>
    intro i h
    have he := h e (by simp)
    simp only [parseEntriesFrom]
    rw [parseEntry_congr he.1 he.2, ih (i + 1) (fun x hx => h x (by simp [hx]))]

/-- C9 (amended): parsing the same document twice yields field-for-field
identical records except for the generated fallback identifier when an
entry lacks an explicit id AND the ingestion-time default for updated
when an entry lacks an updated timestamp; with both present in every
entry the two parses are identical. -/
theorem claim_C9 : ∀ (ks : List String) (now1 rand1 now2 rand2 : Nat → String)
    (es : List Entry) (st : String),
    (parseAtomFeed ks now1 rand1 es st).map scrubVolatile
      = (parseAtomFeed ks now2 rand2 es st).map scrubVolatile
    ∧ ((∀ e ∈ es, jsOr e.id "" ≠ "" ∧ jsOr e.updated "" ≠ "") →
        parseAtomFeed ks now1 rand1 es st = parseAtomFeed ks now2 rand2 es st) := by
  intro ks n1 r1 n2 r2 es st
  exact ⟨parseEntriesFrom_scrub ks n1 r1 n2 r2 st es 0,
    fun h => parseEntriesFrom_congr ks n1 r1 n2 r2 st es 0 h⟩

/-- C9 counterexample: an entry carrying an explicit id but no updated
timestamp parses differently under two clock oracles although the
identifiers agree, so the generated fallback identifier is not the sole
source of non-determinism. -/
theorem claim_C9_counterexample :
    decide ((parseAtomFeed [] (fun _ => "2024-01-01") (fun _ => "0")
        [⟨none, none, none, none, none, some "id-1"⟩] "S")
      = (parseAtomFeed [] (fun _ => "2024-01-02") (fun _ => "0")
        [⟨none, none, none, none, none, some "id-1"⟩] "S")) = false
    ∧ (parseAtomFeed [] (fun _ => "2024-01-01") (fun _ => "0")
        [⟨none, none, none, none, none, some "id-1"⟩] "S").map Tender.id
      = (parseAtomFeed [] (fun _ => "2024-01-02") (fun _ => "0")
        [⟨none, none, none, none, none, some "id-1"⟩] "S").map Tender.id :=
  ⟨by decide, by decide⟩

/-- C9 witness: the amended theorem applied to a document whose single
entry carries both an explicit id and an updated timestamp. -/
theorem claim_C9_witness :
    parseAtomFeed [] (fun _ => "A") (fun _ => "r1")
        [⟨none, none, none, none, some "2024-02-02", some "x"⟩] "S"
      = parseAtomFeed [] (fun _ => "B") (fun _ => "r2")
        [⟨none, none, none, none, some "2024-02-02", some "x"⟩] "S" :=
  (claim_C9 [] (fun _ => "A") (fun _ => "r1") (fun _ => "B") (fun _ => "r2")
    [⟨none, none, none, none, some "2024-02-02", some "x"⟩] "S").2 (by decide)

theorem foldl_append_eq_flatten {α : Type} (L : List (List α)) :
    ∀ acc : List α, L.foldl (· ++ ·) acc = acc ++ L.flatten := by
  induction L with
  | nil => intro acc; simp
  | cons l ls ih =>
    intro acc
    simp [List.foldl_cons, ih, List.flatten_cons]

/-- C2: the aggregation returns a permutation of the concatenation of
every feed pipeline's records (a failed transport contributing the
empty list), sorted descending by the Date value of the updated field,
so index 0 is newest; the date parser is abstracted as pd. -/
theorem claim_C2 : ∀ (pd : String → Int) (env : Env),
    List.Perm (fetchTenders pd env) ((FEED_CONFIG.map (processFeed env)).flatten)
    ∧ List.Pairwise (fun a b => pd b.updated ≤ pd a.updated) (fetchTenders pd env)
    ∧ (∀ feed : FeedConfig, env.fetchFeedContent feed.url = none →
        processFeed env feed = []) := by
  intro pd env
  have hft : fetchTenders pd env
      = ((FEED_CONFIG.map (processFeed env)).flatten).mergeSort (tenderLe pd) := by
    unfold fetchTenders
    rw [foldl_append_eq_flatten]
    simp
  refine ⟨?_, ?_, ?_⟩
  · rw [hft]
    exact List.mergeSort_perm _ _
  · rw [hft]
    have hs := List.sorted_mergeSort
      (fun (a b c : Tender) (hab : tenderLe pd a b = true)
          (hbc : tenderLe pd b c = true) => by
        simp only [tenderLe, decide_eq_true_eq] at *
        omega)
      (fun (a b : Tender) => by
        simp only [tenderLe, Bool.or_eq_true, decide_eq_true_eq]
        omega)
      ((FEED_CONFIG.map (processFeed env)).flatten)
    exact hs.imp (fun h => by simpa [tenderLe] using h)
  · intro feed h
    unfold processFeed
    rw [h]

/-- C2 witness: the theorem applied to an environment whose transport
fails for every url. -/
theorem claim_C2_witness :
    processFeed ⟨fun _ => none, fun _ => some [], fun _ => "", fun _ => "", []⟩
      ⟨"url", "S"⟩ = [] :=
  (claim_C2 (fun _ => 0)
    ⟨fun _ => none, fun _ => some [], fun _ => "", fun _ => "", []⟩).2.2
    ⟨"url", "S"⟩ rfl

end NovaHub
